import Mathlib

/-!
# Verification of the offline-first sync engine (`src/controllers/syncController.js`)

This file gives a shallow embedding of the synchronization and
conflict-resolution engine: the LWW conflict resolver
(`shouldAcceptChange`), the push processor (`processSyncChanges`,
`pushChanges`), the pull processor (`pullChanges`) and the restore
service (`restoreBackup`), together with theorems about their behaviour.

Modelling conventions:
* Timestamps are absolute instants in milliseconds, modelled as `Int`.
  JavaScript's `new Date(x)` normalisation is the identity on instants,
  and `Date` comparison is comparison of the underlying instants.
* The record store of one entity type is a `List SyncRecord`.
  `Model.findOne({id, userId})` is `List.find?` on the key predicate;
  `Model.findOneAndUpdate({id, userId}, doc, {upsert: true})` replaces
  the first record matching the key with `doc`, or appends `doc` when no
  record matches.  The document passed by the controller is stored as
  given (each individual write is atomic).  For `UserPreferences`, whose
  schema declares `id` and `userId` `unique: true`, an insert that
  duplicates a stored `id` or `userId` throws E11000 and lands in the
  `catch`; `processOnePreferences` models that refinement.
* Entity-specific fields (name, icon, text, isDarkMode, ...) are opaque
  to the engine and are collapsed into a single `payload` field.
* The `try { ... } catch` around each record models storage failures:
  two oracles say, per record, whether the `findOne` lookup or the
  upsert write throws.  A thrown operation performs no write.
-/

/-- A syncable record: the common fields of Space, Category, Item and
UserPreferences, with all entity-specific fields collapsed into
`payload`. -/
structure SyncRecord where
  id : String
  userId : String
  deviceId : String
  updatedAt : Int
  createdAt : Int
  deleted : Bool
  payload : String
  deriving Repr, DecidableEq

/-- A conflict descriptor, as pushed onto the `conflicts` array:
`{id, type, reason, serverUpdatedAt, clientUpdatedAt}`. -/
structure SyncConflict where
  id : String
  type : String
  reason : String
  serverUpdatedAt : Int
  clientUpdatedAt : Int
  deriving Repr, DecidableEq

/-- The `{accepted, rejected, conflicts}` result of `processSyncChanges`. -/
structure SyncOutcome where
  accepted : Nat
  rejected : Nat
  conflicts : List SyncConflict
  deriving Repr, DecidableEq

/-- One entity type's store. -/
abbrev Store := List SyncRecord

/-- The Mongo filter `{ id, userId }` used by both the lookup and the
upsert in `processSyncChanges`. -/
def keyMatch (i u : String) (r : SyncRecord) : Bool :=
  r.id == i && r.userId == u

/-- `Model.findOne({ id: i, userId: u })` on a list store. -/
def findRecord (i u : String) (st : Store) : Option SyncRecord :=
  st.find? (keyMatch i u)

/-- `Model.findOneAndUpdate({ id: i, userId: u }, doc, { upsert: true })`:
replace the first record matching the key, or append when none matches.
For the UserPreferences model the append (insert) arm is additionally
guarded by the schema's unique `id`/`userId` indexes; that refinement is
`processOnePreferences` below. -/
def upsertRecord (i u : String) (doc : SyncRecord) : Store → Store
  | [] => [doc]
  | r :: rs =>
      if keyMatch i u r then doc :: rs else r :: upsertRecord i u doc rs

/-- `shouldAcceptChange(incomingRecord, existingRecord)`: accept when no
existing record is stored, otherwise accept iff the incoming `updatedAt`
instant is strictly greater than the existing one. -/
def shouldAcceptChange (incoming : SyncRecord) (existing : Option SyncRecord) : Bool :=
  match existing with
  | none => true
  | some e => incoming.updatedAt > e.updatedAt

/-- The document the controller passes to the upsert:
`{...record, userId, deviceId, updatedAt: new Date(record.updatedAt)}`.
`userId` and `deviceId` are forced; the `updatedAt` normalisation is the
identity on instants; every other field, `createdAt` included, is the
incoming record's. -/
def recordToSave (record : SyncRecord) (userId deviceId : String) : SyncRecord :=
  { record with userId := userId, deviceId := deviceId }

/-- The body of the `for (const record of records)` loop of
`processSyncChanges`, for one record: ownership check, lookup, resolver
decision, upsert or conflict report.  `failL record` (resp. `failW record`)
says the store throws on this record's `findOne` (resp. upsert); the
`catch` turns either throw into a rejection with no conflict entry and no
write. -/
def processOneRecord (modelName userId deviceId : String)
    (failL failW : SyncRecord → Bool) (st : Store) (record : SyncRecord) :
    SyncOutcome × Store :=
  if record.userId ≠ userId then
    (⟨0, 1, []⟩, st)
  else if failL record then
    (⟨0, 1, []⟩, st)
  else
    match findRecord record.id userId st with
    | none =>
        -- shouldAcceptChange record none = true: new record, always accept
        if failW record then (⟨0, 1, []⟩, st)
        else (⟨1, 0, []⟩, upsertRecord record.id userId (recordToSave record userId deviceId) st)
    | some existing =>
        if shouldAcceptChange record (some existing) then
          if failW record then (⟨0, 1, []⟩, st)
          else (⟨1, 0, []⟩, upsertRecord record.id userId (recordToSave record userId deviceId) st)
        else
          (⟨0, 1, [⟨record.id, modelName, "OLDER_TIMESTAMP", existing.updatedAt, record.updatedAt⟩]⟩, st)

/-- `processSyncChanges(Model, records, userId, deviceId)`: fold the
per-record step over the batch, accumulating accepted/rejected counters
and the conflict list in order. -/
def processSyncChanges (modelName userId deviceId : String)
    (failL failW : SyncRecord → Bool) (records : List SyncRecord) (st : Store) :
    SyncOutcome × Store :=
  match records with
  | [] => (⟨0, 0, []⟩, st)
  | record :: rest =>
      let step := processOneRecord modelName userId deviceId failL failW st record
      let restResult := processSyncChanges modelName userId deviceId failL failW rest step.2
      (⟨step.1.accepted + restResult.1.accepted,
        step.1.rejected + restResult.1.rejected,
        step.1.conflicts ++ restResult.1.conflicts⟩, restResult.2)

/-- The no-failure oracle: the store never throws. -/
def noFail : SyncRecord → Bool := fun _ => false

/-- The `changes` object of a push request: three sequences plus an
optional single UserPreferences record. -/
structure SyncBatch where
  spaces : List SyncRecord
  categories : List SyncRecord
  items : List SyncRecord
  preferences : Option SyncRecord
  deriving Repr, DecidableEq

/-- The four per-entity-type stores. -/
structure Stores where
  spaces : Store
  categories : Store
  items : Store
  preferences : Store
  deriving Repr, DecidableEq

/-- The four per-entity-type `{accepted, rejected, conflicts}` results of
a push. -/
structure PushResults where
  spaces : SyncOutcome
  categories : SyncOutcome
  items : SyncOutcome
  preferences : SyncOutcome
  deriving Repr, DecidableEq

/-- The core of `pushChanges` (after request validation): process each
entity type's records through `processSyncChanges`; `changes.preferences`
is a single object wrapped into a one-element array. -/
def pushChanges (userId deviceId : String) (failL failW : SyncRecord → Bool)
    (changes : SyncBatch) (stores : Stores) : PushResults × Stores :=
  let s := processSyncChanges "Space" userId deviceId failL failW changes.spaces stores.spaces
  let c := processSyncChanges "Category" userId deviceId failL failW changes.categories stores.categories
  let i := processSyncChanges "Item" userId deviceId failL failW changes.items stores.items
  let p :=
    match changes.preferences with
    | some pref =>
        processSyncChanges "UserPreferences" userId deviceId failL failW [pref] stores.preferences
    | none => (⟨0, 0, []⟩, stores.preferences)
  (⟨s.1, c.1, i.1, p.1⟩, ⟨s.2, c.2, i.2, p.2⟩)

/-- `pullChanges` (after request validation): `lastSyncAt` absent is
`new Date(0)` (the epoch); each entity type selects the stored records
with matching `userId`, `updatedAt > syncThreshold` and
`deviceId != deviceId`. -/
def pullChanges (userId deviceId : String) (lastSyncAt : Option Int) (st : Store) :
    List SyncRecord :=
  let syncThreshold : Int := match lastSyncAt with | some t => t | none => 0
  st.filter (fun r =>
    r.userId == userId && decide (r.updatedAt > syncThreshold) && !(r.deviceId == deviceId))

/-- One `updateMany({ userId }, { deleted: true, updatedAt: now, deviceId })`
of the restore sweep: every record of the user is soft-deleted and
re-stamped; other users' records are untouched. -/
def sweepUser (userId deviceId : String) (now : Int) (st : Store) : Store :=
  st.map (fun r =>
    if r.userId == userId then
      { r with deleted := true, updatedAt := now, deviceId := deviceId }
    else r)

/-- The sweep phase of `restoreBackup`: the Space, Category and Item
stores are swept; no `updateMany` is issued for UserPreferences. -/
def restoreSweep (userId deviceId : String) (now : Int) (stores : Stores) : Stores :=
  { stores with
    spaces := sweepUser userId deviceId now stores.spaces,
    categories := sweepUser userId deviceId now stores.categories,
    items := sweepUser userId deviceId now stores.items }

/-- The per-entity-type `{accepted}` counts reported by `restoreBackup`. -/
structure RestoreResults where
  spaces : SyncOutcome
  categories : SyncOutcome
  items : SyncOutcome
  preferences : SyncOutcome
  deriving Repr, DecidableEq

/-- `restoreBackup` (after request validation): sweep at instant `now`,
then replay the backup payload through `processSyncChanges`, entity type
by entity type (an empty list replays to zero counts and an unchanged
store, matching the `length > 0` guards). -/
def restoreBackup (userId deviceId : String) (now : Int)
    (failL failW : SyncRecord → Bool) (backupData : SyncBatch) (stores : Stores) :
    RestoreResults × Stores :=
  let swept := restoreSweep userId deviceId now stores
  let s := processSyncChanges "Space" userId deviceId failL failW backupData.spaces swept.spaces
  let c := processSyncChanges "Category" userId deviceId failL failW backupData.categories swept.categories
  let i := processSyncChanges "Item" userId deviceId failL failW backupData.items swept.items
  let p :=
    match backupData.preferences with
    | some pref =>
        processSyncChanges "UserPreferences" userId deviceId failL failW [pref] swept.preferences
    | none => (⟨0, 0, []⟩, swept.preferences)
  (⟨s.1, c.1, i.1, p.1⟩, ⟨s.2, c.2, i.2, p.2⟩)

/-- A stored row that one of `userPreferencesSchema`'s unique indexes
sets against inserting `doc`: both `id` and `userId` are declared
`unique: true`, so inserting a new row whose `id` or `userId` is
already stored makes MongoDB throw E11000. -/
def prefsInsertThrows (doc : SyncRecord) (st : Store) : Bool :=
  st.any (fun r => r.id == doc.id || r.userId == doc.userId)

/-- The per-record loop body of `processSyncChanges` when `Model` is
`UserPreferences`: identical to `processOneRecord` except that the
upsert's *insert* arm (the `(id, userId)` lookup missed) is additionally
subject to the unique `id`/`userId` indexes of `userPreferencesSchema`:
a violating insert throws E11000, which the `catch` counts as a
rejection with no conflict entry and no write.  The *update* arm
replaces the matched row in place, keeping its `id` and `userId`, and
cannot violate either index. -/
def processOnePreferences (userId deviceId : String)
    (failL failW : SyncRecord → Bool) (st : Store) (record : SyncRecord) :
    SyncOutcome × Store :=
  if record.userId ≠ userId then
    (⟨0, 1, []⟩, st)
  else if failL record then
    (⟨0, 1, []⟩, st)
  else
    match findRecord record.id userId st with
    | none =>
        if failW record then (⟨0, 1, []⟩, st)
        else if prefsInsertThrows (recordToSave record userId deviceId) st then
          (⟨0, 1, []⟩, st)
        else (⟨1, 0, []⟩, upsertRecord record.id userId (recordToSave record userId deviceId) st)
    | some existing =>
        if shouldAcceptChange record (some existing) then
          if failW record then (⟨0, 1, []⟩, st)
          else (⟨1, 0, []⟩, upsertRecord record.id userId (recordToSave record userId deviceId) st)
        else
          (⟨0, 1, [⟨record.id, "UserPreferences", "OLDER_TIMESTAMP",
                    existing.updatedAt, record.updatedAt⟩]⟩, st)

/-- `processSyncChanges(UserPreferences, records, userId, deviceId)`
with the unique-index-faithful write step. -/
def processPreferencesChanges (userId deviceId : String)
    (failL failW : SyncRecord → Bool) (records : List SyncRecord) (st : Store) :
    SyncOutcome × Store :=
  match records with
  | [] => (⟨0, 0, []⟩, st)
  | record :: rest =>
      let step := processOnePreferences userId deviceId failL failW st record
      let restResult := processPreferencesChanges userId deviceId failL failW rest step.2
      (⟨step.1.accepted + restResult.1.accepted,
        step.1.rejected + restResult.1.rejected,
        step.1.conflicts ++ restResult.1.conflicts⟩, restResult.2)

/-- **C1.** The conflict resolver: with no existing record it accepts;
with an existing record it accepts iff the incoming `updatedAt` is
strictly greater; on exact equality it rejects, keeping the stored
version. -/
theorem shouldAcceptChange_spec (incoming existing : SyncRecord) :
    shouldAcceptChange incoming none = true ∧
    (shouldAcceptChange incoming (some existing) = true ↔
      incoming.updatedAt > existing.updatedAt) ∧
    (incoming.updatedAt = existing.updatedAt →
      shouldAcceptChange incoming (some existing) = false) := by
  refine ⟨rfl, ?_, ?_⟩
  · simp [shouldAcceptChange]
  · intro h
    simp [shouldAcceptChange, h]

/-- Witness for **C1** at a concrete equal-timestamp pair. -/
theorem shouldAcceptChange_spec_witness :
    shouldAcceptChange ⟨"a", "u", "d1", 5, 1, false, "x"⟩
      (some ⟨"a", "u", "d2", 5, 1, false, "y"⟩) = false :=
  (shouldAcceptChange_spec ⟨"a", "u", "d1", 5, 1, false, "x"⟩
    ⟨"a", "u", "d2", 5, 1, false, "y"⟩).2.2 rfl

/-! ## Basic equations for the push processor -/

theorem processSyncChanges_nil (modelName userId deviceId : String)
    (failL failW : SyncRecord → Bool) (st : Store) :
    processSyncChanges modelName userId deviceId failL failW [] st = (⟨0, 0, []⟩, st) := rfl

theorem processSyncChanges_cons (modelName userId deviceId : String)
    (failL failW : SyncRecord → Bool) (record : SyncRecord) (rest : List SyncRecord) (st : Store) :
    processSyncChanges modelName userId deviceId failL failW (record :: rest) st =
      (⟨(processOneRecord modelName userId deviceId failL failW st record).1.accepted +
          (processSyncChanges modelName userId deviceId failL failW rest
            (processOneRecord modelName userId deviceId failL failW st record).2).1.accepted,
        (processOneRecord modelName userId deviceId failL failW st record).1.rejected +
          (processSyncChanges modelName userId deviceId failL failW rest
            (processOneRecord modelName userId deviceId failL failW st record).2).1.rejected,
        (processOneRecord modelName userId deviceId failL failW st record).1.conflicts ++
          (processSyncChanges modelName userId deviceId failL failW rest
            (processOneRecord modelName userId deviceId failL failW st record).2).1.conflicts⟩,
       (processSyncChanges modelName userId deviceId failL failW rest
         (processOneRecord modelName userId deviceId failL failW st record).2).2) := rfl

theorem processOneRecord_not_owned (modelName userId deviceId : String)
    (failL failW : SyncRecord → Bool) (st : Store) (record : SyncRecord)
    (h : record.userId ≠ userId) :
    processOneRecord modelName userId deviceId failL failW st record = (⟨0, 1, []⟩, st) := by
  simp [processOneRecord, h]

theorem processOneRecord_lookup_fails (modelName userId deviceId : String)
    (failL failW : SyncRecord → Bool) (st : Store) (record : SyncRecord)
    (hf : failL record = true) :
    processOneRecord modelName userId deviceId failL failW st record = (⟨0, 1, []⟩, st) := by
  by_cases h : record.userId = userId
  · simp [processOneRecord, h, hf]
  · simp [processOneRecord, h]

theorem processOneRecord_accept (modelName userId deviceId : String)
    (failL failW : SyncRecord → Bool) (st : Store) (record : SyncRecord)
    (h : record.userId = userId) (hL : failL record = false) (hW : failW record = false)
    (hacc : shouldAcceptChange record (findRecord record.id userId st) = true) :
    processOneRecord modelName userId deviceId failL failW st record =
      (⟨1, 0, []⟩,
       upsertRecord record.id userId (recordToSave record userId deviceId) st) := by
  unfold processOneRecord
  rcases hfind : findRecord record.id userId st with _ | existing
  · simp [h, hL, hW, hfind]
  · rw [hfind] at hacc
    simp [h, hL, hW, hfind, hacc]

theorem processOneRecord_write_fails (modelName userId deviceId : String)
    (failL failW : SyncRecord → Bool) (st : Store) (record : SyncRecord)
    (hW : failW record = true)
    (hacc : shouldAcceptChange record (findRecord record.id userId st) = true) :
    processOneRecord modelName userId deviceId failL failW st record = (⟨0, 1, []⟩, st) := by
  by_cases h : record.userId = userId
  · by_cases hL : failL record = true
    · exact processOneRecord_lookup_fails modelName userId deviceId failL failW st record hL
    · unfold processOneRecord
      rcases hfind : findRecord record.id userId st with _ | existing
      · simp [h, hL, hW, hfind]
      · rw [hfind] at hacc
        simp [h, hL, hW, hfind, hacc]
  · exact processOneRecord_not_owned modelName userId deviceId failL failW st record h

theorem processOneRecord_reject (modelName userId deviceId : String)
    (failL failW : SyncRecord → Bool) (st : Store) (record existing : SyncRecord)
    (h : record.userId = userId) (hL : failL record = false)
    (hfind : findRecord record.id userId st = some existing)
    (hacc : shouldAcceptChange record (some existing) = false) :
    processOneRecord modelName userId deviceId failL failW st record =
      (⟨0, 1, [⟨record.id, modelName, "OLDER_TIMESTAMP",
                existing.updatedAt, record.updatedAt⟩]⟩, st) := by
  unfold processOneRecord
  simp [h, hL, hfind, hacc]

/-- Each record contributes exactly one count, accepted or rejected, and
at most one conflict entry, which only a resolver rejection produces. -/
theorem processOneRecord_total (modelName userId deviceId : String)
    (failL failW : SyncRecord → Bool) (st : Store) (record : SyncRecord) :
    (processOneRecord modelName userId deviceId failL failW st record).1.accepted +
      (processOneRecord modelName userId deviceId failL failW st record).1.rejected = 1 ∧
    (processOneRecord modelName userId deviceId failL failW st record).1.conflicts.length ≤
      (processOneRecord modelName userId deviceId failL failW st record).1.rejected := by
  unfold processOneRecord
  repeat' split
  all_goals simp

/-- Counter totality for a whole batch: `accepted + rejected` equals the
number of submitted records, and the conflict list is no longer than the
rejected count. -/
theorem processSyncChanges_total (modelName userId deviceId : String)
    (failL failW : SyncRecord → Bool) (records : List SyncRecord) (st : Store) :
    (processSyncChanges modelName userId deviceId failL failW records st).1.accepted +
      (processSyncChanges modelName userId deviceId failL failW records st).1.rejected =
        records.length ∧
    (processSyncChanges modelName userId deviceId failL failW records st).1.conflicts.length ≤
      (processSyncChanges modelName userId deviceId failL failW records st).1.rejected := by
  induction records generalizing st with
  | nil => simp [processSyncChanges_nil]
  | cons record rest ih =>
      rw [processSyncChanges_cons]
      obtain ⟨h1, h2⟩ := processOneRecord_total modelName userId deviceId failL failW st record
      obtain ⟨h3, h4⟩ :=
        ih (processOneRecord modelName userId deviceId failL failW st record).2
      constructor
      · simp only [List.length_cons]
        omega
      · simp only [List.length_append]
        omega

/-- **C10.** On every push, for every entity type, each submitted record
increments exactly one of the accepted or rejected counters on every
path (ownership rejection, resolver accept, resolver reject, lookup or
write failure), so `accepted + rejected` equals the number of records
submitted for that type, and the conflicts list never has more entries
than `rejected`. -/
theorem pushChanges_counters_total (userId deviceId : String)
    (failL failW : SyncRecord → Bool) (changes : SyncBatch) (stores : Stores) :
    ((pushChanges userId deviceId failL failW changes stores).1.spaces.accepted +
        (pushChanges userId deviceId failL failW changes stores).1.spaces.rejected =
          changes.spaces.length ∧
      (pushChanges userId deviceId failL failW changes stores).1.spaces.conflicts.length ≤
        (pushChanges userId deviceId failL failW changes stores).1.spaces.rejected) ∧
    ((pushChanges userId deviceId failL failW changes stores).1.categories.accepted +
        (pushChanges userId deviceId failL failW changes stores).1.categories.rejected =
          changes.categories.length ∧
      (pushChanges userId deviceId failL failW changes stores).1.categories.conflicts.length ≤
        (pushChanges userId deviceId failL failW changes stores).1.categories.rejected) ∧
    ((pushChanges userId deviceId failL failW changes stores).1.items.accepted +
        (pushChanges userId deviceId failL failW changes stores).1.items.rejected =
          changes.items.length ∧
      (pushChanges userId deviceId failL failW changes stores).1.items.conflicts.length ≤
        (pushChanges userId deviceId failL failW changes stores).1.items.rejected) ∧
    ((pushChanges userId deviceId failL failW changes stores).1.preferences.accepted +
        (pushChanges userId deviceId failL failW changes stores).1.preferences.rejected =
          (match changes.preferences with | some _ => 1 | none => 0) ∧
      (pushChanges userId deviceId failL failW changes stores).1.preferences.conflicts.length ≤
        (pushChanges userId deviceId failL failW changes stores).1.preferences.rejected) := by
  refine ⟨?_, ?_, ?_, ?_⟩
  · exact processSyncChanges_total "Space" userId deviceId failL failW changes.spaces stores.spaces
  · exact processSyncChanges_total "Category" userId deviceId failL failW
      changes.categories stores.categories
  · exact processSyncChanges_total "Item" userId deviceId failL failW
      changes.items stores.items
  · rcases hp : changes.preferences with _ | pref
    · simp [pushChanges, hp]
    · have := processSyncChanges_total "UserPreferences" userId deviceId failL failW
        [pref] stores.preferences
      simpa [pushChanges, hp] using this

/-- **C9.** A record whose `userId` differs from the authenticated user,
or whose lookup fails, or whose accepted write fails, is counted as
rejected with no conflict descriptor; an ownership-mismatched or failed
record leaves the store unmodified, and the rest of the batch is
processed from that unmodified store. -/
theorem processSyncChanges_reject_paths (modelName userId deviceId : String)
    (failL failW : SyncRecord → Bool) (record : SyncRecord) (rest : List SyncRecord)
    (st : Store)
    (h : record.userId ≠ userId ∨ failL record = true ∨
      (failW record = true ∧
        shouldAcceptChange record (findRecord record.id userId st) = true)) :
    processOneRecord modelName userId deviceId failL failW st record = (⟨0, 1, []⟩, st) ∧
    processSyncChanges modelName userId deviceId failL failW (record :: rest) st =
      (⟨(processSyncChanges modelName userId deviceId failL failW rest st).1.accepted,
        1 + (processSyncChanges modelName userId deviceId failL failW rest st).1.rejected,
        (processSyncChanges modelName userId deviceId failL failW rest st).1.conflicts⟩,
       (processSyncChanges modelName userId deviceId failL failW rest st).2) := by
  have hstep : processOneRecord modelName userId deviceId failL failW st record =
      (⟨0, 1, []⟩, st) := by
    rcases h with h | h | ⟨hW, hacc⟩
    · exact processOneRecord_not_owned modelName userId deviceId failL failW st record h
    · exact processOneRecord_lookup_fails modelName userId deviceId failL failW st record h
    · exact processOneRecord_write_fails modelName userId deviceId failL failW st record hW hacc
  refine ⟨hstep, ?_⟩
  rw [processSyncChanges_cons, hstep]
  simp [Nat.add_comm]

/-- Witness for **C9**: a concrete ownership-mismatched record is
rejected without a conflict entry and the store and tail processing are
untouched. -/
theorem processSyncChanges_reject_paths_witness :
    processOneRecord "Item" "u" "d" noFail noFail
        [⟨"b", "u", "d0", 3, 0, false, "q"⟩] ⟨"a", "mallory", "d1", 9, 0, false, "x"⟩ =
      (⟨0, 1, []⟩, [⟨"b", "u", "d0", 3, 0, false, "q"⟩]) ∧
    processSyncChanges "Item" "u" "d" noFail noFail
        [⟨"a", "mallory", "d1", 9, 0, false, "x"⟩] [⟨"b", "u", "d0", 3, 0, false, "q"⟩] =
      (⟨(processSyncChanges "Item" "u" "d" noFail noFail []
            [⟨"b", "u", "d0", 3, 0, false, "q"⟩]).1.accepted,
        1 + (processSyncChanges "Item" "u" "d" noFail noFail []
            [⟨"b", "u", "d0", 3, 0, false, "q"⟩]).1.rejected,
        (processSyncChanges "Item" "u" "d" noFail noFail []
            [⟨"b", "u", "d0", 3, 0, false, "q"⟩]).1.conflicts⟩,
       (processSyncChanges "Item" "u" "d" noFail noFail []
           [⟨"b", "u", "d0", 3, 0, false, "q"⟩]).2) :=
  processSyncChanges_reject_paths "Item" "u" "d" noFail noFail
    ⟨"a", "mallory", "d1", 9, 0, false, "x"⟩ []
    [⟨"b", "u", "d0", 3, 0, false, "q"⟩] (Or.inl (by decide))

/-! ## Lookup/upsert interaction -/

theorem findRecord_upsert_self (i u : String) (doc : SyncRecord) (st : Store)
    (hid : doc.id = i) (hu : doc.userId = u) :
    findRecord i u (upsertRecord i u doc st) = some doc := by
  have hk : keyMatch i u doc = true := by
    simp [keyMatch, hid, hu]
  induction st with
  | nil => simp [upsertRecord, findRecord, List.find?, hk]
  | cons r rs ih =>
      by_cases hr : keyMatch i u r
      · simp [upsertRecord, hr, findRecord, List.find?, hk]
      · simp only [upsertRecord, hr, if_false]
        simpa [findRecord, List.find?, hr] using ih

theorem findRecord_upsert_other (i j u : String) (doc : SyncRecord) (st : Store)
    (hid : doc.id = i) (hne : i ≠ j) :
    findRecord j u (upsertRecord i u doc st) = findRecord j u st := by
  have hk : keyMatch j u doc = false := by
    simp [keyMatch, hid]
    intro h
    exact absurd h hne
  induction st with
  | nil => simp [upsertRecord, findRecord, List.find?, hk]
  | cons r rs ih =>
      by_cases hr : keyMatch i u r
      · have hri : r.id = i := by
          have h' := hr
          simp [keyMatch] at h'
          exact h'.1
        have hrj : keyMatch j u r = false := by
          simp [keyMatch, hri]
          intro h
          exact absurd h hne
        simp [upsertRecord, hr, findRecord, List.find?, hk, hrj]
      · simp only [upsertRecord, hr, if_false]
        by_cases hrj : keyMatch j u r
        · simp [findRecord, List.find?, hrj]
        · simpa [findRecord, List.find?, hrj] using ih

/-- **C3.** An accepted record is stored verbatim except that `userId`
is forced to the authenticated user and `deviceId` to the caller-supplied
device id, whatever the payload carried there, and the accepted counter
is incremented by one for that record. -/
theorem accepted_record_stored_verbatim (modelName userId deviceId : String)
    (st : Store) (record : SyncRecord)
    (h : record.userId = userId)
    (hacc : shouldAcceptChange record (findRecord record.id userId st) = true) :
    (processOneRecord modelName userId deviceId noFail noFail st record).1 = ⟨1, 0, []⟩ ∧
    findRecord record.id userId
        (processOneRecord modelName userId deviceId noFail noFail st record).2 =
      some ⟨record.id, userId, deviceId, record.updatedAt, record.createdAt,
            record.deleted, record.payload⟩ := by
  have hstep := processOneRecord_accept modelName userId deviceId noFail noFail st record
    h rfl rfl hacc
  rw [hstep]
  refine ⟨rfl, ?_⟩
  exact findRecord_upsert_self record.id userId (recordToSave record userId deviceId) st rfl rfl

/-- Witness for **C3**: pushing a fresh record whose payload claims a
foreign device id stores it with the forced `userId`/`deviceId`. -/
theorem accepted_record_stored_verbatim_witness :
    (processOneRecord "Space" "u" "dev" noFail noFail []
        ⟨"a", "u", "spoofed", 5, 2, false, "pl"⟩).1 = ⟨1, 0, []⟩ ∧
    findRecord "a" "u"
        (processOneRecord "Space" "u" "dev" noFail noFail []
          ⟨"a", "u", "spoofed", 5, 2, false, "pl"⟩).2 =
      some ⟨"a", "u", "dev", 5, 2, false, "pl"⟩ :=
  accepted_record_stored_verbatim "Space" "u" "dev" [] ⟨"a", "u", "spoofed", 5, 2, false, "pl"⟩
    rfl rfl

/-- Counterexample to **C7** as stated: a record first accepted with
`createdAt = 100` and then updated by an accepted push whose payload
carries `createdAt = 200` ends up stored with `createdAt = 200`: the
upsert document spreads the incoming record, `createdAt` included, so an
accepted update does change `createdAt`. -/
theorem createdAt_overwritten_by_accepted_push :
    findRecord "a" "u"
        (processSyncChanges "Item" "u" "d2" noFail noFail
          [⟨"a", "u", "c2", 6, 200, false, "p2"⟩]
          (processSyncChanges "Item" "u" "d1" noFail noFail
            [⟨"a", "u", "c1", 5, 100, false, "p1"⟩] []).2).2 =
      some ⟨"a", "u", "d2", 6, 200, false, "p2"⟩ ∧
    (200 : Int) ≠ (100 : Int) := by
  constructor
  · rfl
  · decide

/-- **C7 (amended).** What an accepted write stores in `createdAt` is the
incoming payload's `createdAt`, not the previously stored value: the
stored `createdAt` always tracks the most recently accepted payload. -/
theorem accepted_write_createdAt_follows_payload (modelName userId deviceId : String)
    (st : Store) (record : SyncRecord)
    (h : record.userId = userId)
    (hacc : shouldAcceptChange record (findRecord record.id userId st) = true) :
    ∃ stored,
      findRecord record.id userId
          (processOneRecord modelName userId deviceId noFail noFail st record).2 =
        some stored ∧ stored.createdAt = record.createdAt := by
  rw [processOneRecord_accept modelName userId deviceId noFail noFail st record h rfl rfl hacc]
  exact ⟨recordToSave record userId deviceId,
    findRecord_upsert_self record.id userId (recordToSave record userId deviceId) st rfl rfl,
    rfl⟩

/-- Witness for the amended **C7**: an accepted update over an existing
record stores the payload's `createdAt`. -/
theorem accepted_write_createdAt_follows_payload_witness :
    ∃ stored,
      findRecord "a" "u"
          (processOneRecord "Item" "u" "d2" noFail noFail
            [⟨"a", "u", "d1", 5, 100, false, "p1"⟩]
            ⟨"a", "u", "c2", 6, 200, false, "p2"⟩).2 =
        some stored ∧ stored.createdAt = (200 : Int) :=
  accepted_write_createdAt_follows_payload "Item" "u" "d2"
    [⟨"a", "u", "d1", 5, 100, false, "p1"⟩] ⟨"a", "u", "c2", 6, 200, false, "p2"⟩
    rfl (by decide)

/-! ## Idempotence of push -/

/-- Processing one record never lowers the stored `updatedAt` at any key:
a key's record is only ever replaced by a strictly newer one. -/
theorem processOneRecord_find_mono (modelName userId deviceId : String)
    (failL failW : SyncRecord → Bool) (st : Store) (record : SyncRecord)
    (i : String) (e : SyncRecord) (hfind : findRecord i userId st = some e) :
    ∃ e', findRecord i userId
        (processOneRecord modelName userId deviceId failL failW st record).2 = some e' ∧
      e.updatedAt ≤ e'.updatedAt := by
  by_cases ho : record.userId = userId
  · by_cases hL : failL record = true
    · rw [processOneRecord_lookup_fails modelName userId deviceId failL failW st record hL]
      exact ⟨e, hfind, le_refl _⟩
    · rw [Bool.not_eq_true] at hL
      by_cases hacc : shouldAcceptChange record (findRecord record.id userId st) = true
      · by_cases hW : failW record = true
        · rw [processOneRecord_write_fails modelName userId deviceId failL failW st record hW hacc]
          exact ⟨e, hfind, le_refl _⟩
        · rw [Bool.not_eq_true] at hW
          rw [processOneRecord_accept modelName userId deviceId failL failW st record ho hL hW hacc]
          by_cases hri : record.id = i
          · subst hri
            rw [hfind] at hacc
            have hlt : e.updatedAt < record.updatedAt := by
              simpa [shouldAcceptChange] using hacc
            refine ⟨recordToSave record userId deviceId, ?_, le_of_lt hlt⟩
            exact findRecord_upsert_self record.id userId
              (recordToSave record userId deviceId) st rfl rfl
          · rw [findRecord_upsert_other record.id i userId
              (recordToSave record userId deviceId) st rfl hri]
            exact ⟨e, hfind, le_refl _⟩
      · rcases hfind' : findRecord record.id userId st with _ | existing
        · rw [hfind'] at hacc
          exact absurd rfl hacc
        · rw [hfind'] at hacc
          rw [processOneRecord_reject modelName userId deviceId failL failW st record existing
            ho hL hfind' (Bool.not_eq_true _ ▸ hacc)]
          exact ⟨e, hfind, le_refl _⟩
  · rw [processOneRecord_not_owned modelName userId deviceId failL failW st record ho]
    exact ⟨e, hfind, le_refl _⟩

/-- Batch version of `processOneRecord_find_mono`. -/
theorem processSyncChanges_find_mono (modelName userId deviceId : String)
    (failL failW : SyncRecord → Bool) (records : List SyncRecord) (st : Store)
    (i : String) (e : SyncRecord) (hfind : findRecord i userId st = some e) :
    ∃ e', findRecord i userId
        (processSyncChanges modelName userId deviceId failL failW records st).2 = some e' ∧
      e.updatedAt ≤ e'.updatedAt := by
  induction records generalizing st e with
  | nil => exact ⟨e, hfind, le_refl _⟩
  | cons record rest ih =>
      obtain ⟨e1, hfind1, hle1⟩ := processOneRecord_find_mono modelName userId deviceId
        failL failW st record i e hfind
      obtain ⟨e2, hfind2, hle2⟩ := ih _ e1 hfind1
      rw [processSyncChanges_cons]
      exact ⟨e2, hfind2, le_trans hle1 hle2⟩

/-- After a failure-free batch, every record of the batch owned by the
user is dominated in the store: the store holds a record under its key
with an `updatedAt` at least as large. -/
theorem processSyncChanges_post (modelName userId deviceId : String)
    (records : List SyncRecord) (st : Store) :
    ∀ r ∈ records, r.userId = userId →
      ∃ e, findRecord r.id userId
          (processSyncChanges modelName userId deviceId noFail noFail records st).2 = some e ∧
        r.updatedAt ≤ e.updatedAt := by
  induction records generalizing st with
  | nil => intro r hr; exact absurd hr (List.not_mem_nil r)
  | cons record rest ih =>
      intro r hr ho
      rw [processSyncChanges_cons]
      rcases List.mem_cons.mp hr with hr | hr
      · subst hr
        by_cases hacc : shouldAcceptChange r (findRecord r.id userId st) = true
        · rw [processOneRecord_accept modelName userId deviceId noFail noFail st r ho rfl rfl hacc]
          have hself : findRecord r.id userId
              (upsertRecord r.id userId (recordToSave r userId deviceId) st) =
              some (recordToSave r userId deviceId) :=
            findRecord_upsert_self r.id userId (recordToSave r userId deviceId) st rfl rfl
          obtain ⟨e', hfind', hle'⟩ := processSyncChanges_find_mono modelName userId deviceId
            noFail noFail rest _ r.id (recordToSave r userId deviceId) hself
          exact ⟨e', hfind', hle'⟩
        · rcases hfind : findRecord r.id userId st with _ | existing
          · rw [hfind] at hacc
            exact absurd rfl hacc
          · rw [hfind] at hacc
            have hle : r.updatedAt ≤ existing.updatedAt := by
              have := Bool.not_eq_true _ ▸ hacc
              simpa [shouldAcceptChange, not_lt] using this
            rw [processOneRecord_reject modelName userId deviceId noFail noFail st r existing
              ho rfl hfind (Bool.not_eq_true _ ▸ hacc)]
            obtain ⟨e', hfind', hle'⟩ := processSyncChanges_find_mono modelName userId deviceId
              noFail noFail rest st r.id existing hfind
            exact ⟨e', hfind', le_trans hle hle'⟩
      · exact ih _ r hr ho

/-- A failure-free batch each of whose owned records is already dominated
in the store accepts nothing and leaves the store untouched. -/
theorem processSyncChanges_all_stale (modelName userId deviceId : String)
    (records : List SyncRecord) (st : Store)
    (hdom : ∀ r ∈ records, r.userId = userId →
      ∃ e, findRecord r.id userId st = some e ∧ r.updatedAt ≤ e.updatedAt) :
    (processSyncChanges modelName userId deviceId noFail noFail records st).1.accepted = 0 ∧
    (processSyncChanges modelName userId deviceId noFail noFail records st).2 = st := by
  induction records with
  | nil => exact ⟨rfl, rfl⟩
  | cons record rest ih =>
      have hstep : processOneRecord modelName userId deviceId noFail noFail st record =
          (⟨0, 1, []⟩, st) ∨
          ∃ conflict, processOneRecord modelName userId deviceId noFail noFail st record =
            (⟨0, 1, [conflict]⟩, st) := by
        by_cases ho : record.userId = userId
        · obtain ⟨e, hfind, hle⟩ := hdom record (List.mem_cons_self record rest) ho
          have hacc : shouldAcceptChange record (some e) = false := by
            simp [shouldAcceptChange, not_lt.mpr hle]
          right
          exact ⟨_, processOneRecord_reject modelName userId deviceId noFail noFail st record e
            ho rfl hfind hacc⟩
        · left
          exact processOneRecord_not_owned modelName userId deviceId noFail noFail st record ho
      have hrest := ih (fun r hr ho => hdom r (List.mem_cons_of_mem record hr) ho)
      rw [processSyncChanges_cons]
      rcases hstep with hstep | ⟨conflict, hstep⟩ <;>
        · rw [hstep]
          exact ⟨by simpa using hrest.1, by simpa using hrest.2⟩

/-- Pushing the same batch twice through one entity type's processor:
the second run accepts nothing and leaves the store exactly as the first
run left it. -/
theorem processSyncChanges_idempotent (modelName userId deviceId : String)
    (records : List SyncRecord) (st : Store) :
    (processSyncChanges modelName userId deviceId noFail noFail records
        (processSyncChanges modelName userId deviceId noFail noFail records st).2).1.accepted
      = 0 ∧
    (processSyncChanges modelName userId deviceId noFail noFail records
        (processSyncChanges modelName userId deviceId noFail noFail records st).2).2 =
      (processSyncChanges modelName userId deviceId noFail noFail records st).2 :=
  processSyncChanges_all_stale modelName userId deviceId records
    (processSyncChanges modelName userId deviceId noFail noFail records st).2
    (processSyncChanges_post modelName userId deviceId records st)

/-- **C2.** Push is idempotent: after a failure-free push of a batch,
pushing the identical batch again for the same user accepts zero records
for every entity type and leaves every stored record exactly as the
first push left it. -/
theorem pushChanges_idempotent (userId deviceId : String)
    (changes : SyncBatch) (stores : Stores) :
    (pushChanges userId deviceId noFail noFail changes
        (pushChanges userId deviceId noFail noFail changes stores).2).1.spaces.accepted = 0 ∧
    (pushChanges userId deviceId noFail noFail changes
        (pushChanges userId deviceId noFail noFail changes stores).2).1.categories.accepted = 0 ∧
    (pushChanges userId deviceId noFail noFail changes
        (pushChanges userId deviceId noFail noFail changes stores).2).1.items.accepted = 0 ∧
    (pushChanges userId deviceId noFail noFail changes
        (pushChanges userId deviceId noFail noFail changes stores).2).1.preferences.accepted = 0 ∧
    (pushChanges userId deviceId noFail noFail changes
        (pushChanges userId deviceId noFail noFail changes stores).2).2 =
      (pushChanges userId deviceId noFail noFail changes stores).2 := by
  have hs := processSyncChanges_idempotent "Space" userId deviceId changes.spaces stores.spaces
  have hc := processSyncChanges_idempotent "Category" userId deviceId
    changes.categories stores.categories
  have hi := processSyncChanges_idempotent "Item" userId deviceId changes.items stores.items
  rcases hp : changes.preferences with _ | pref
  · refine ⟨by simp [pushChanges, hp, hs.1], by simp [pushChanges, hp, hc.1],
      by simp [pushChanges, hp, hi.1], by simp [pushChanges, hp], ?_⟩
    simp [pushChanges, hp, hs.2, hc.2, hi.2]
  · have hpp := processSyncChanges_idempotent "UserPreferences" userId deviceId
      [pref] stores.preferences
    refine ⟨by simp [pushChanges, hp, hs.1], by simp [pushChanges, hp, hc.1],
      by simp [pushChanges, hp, hi.1], by simp [pushChanges, hp, hpp.1], ?_⟩
    simp [pushChanges, hp, hs.2, hc.2, hi.2, hpp.2]

/-! ## Pull -/

/-- `UserPreferences.findOne` with the same incremental-change filter. -/
def pullPreferences (userId deviceId : String) (lastSyncAt : Option Int) (st : Store) :
    Option SyncRecord :=
  let syncThreshold : Int := match lastSyncAt with | some t => t | none => 0
  st.find? (fun r =>
    r.userId == userId && decide (r.updatedAt > syncThreshold) && !(r.deviceId == deviceId))

/-- **C4 (amended).** Pull returns exactly the stored records whose
`userId` matches, whose `updatedAt` is strictly greater than the
threshold — the supplied `since`, or the epoch instant `0` when `since`
is absent, so that epoch-or-earlier-stamped records do not qualify — and
whose `deviceId` differs from the requesting device; the `deleted` flag
is never consulted, so soft-deleted records are included identically to
live ones.  The preferences `findOne` applies the same predicate. -/
theorem pullChanges_mem (userId deviceId : String) (lastSyncAt : Option Int)
    (st : Store) (r : SyncRecord) :
    (r ∈ pullChanges userId deviceId lastSyncAt st ↔
      r ∈ st ∧ r.userId = userId ∧ lastSyncAt.getD 0 < r.updatedAt ∧
        r.deviceId ≠ deviceId) ∧
    (∀ p, pullPreferences userId deviceId lastSyncAt st = some p →
      p ∈ st ∧ p.userId = userId ∧ lastSyncAt.getD 0 < p.updatedAt ∧
        p.deviceId ≠ deviceId) := by
  constructor
  · cases lastSyncAt <;>
      simp [pullChanges, List.mem_filter, and_assoc, Option.getD]
  · intro p hp
    have hmem := List.mem_of_find?_eq_some hp
    have hpred := List.find?_some hp
    cases lastSyncAt <;>
      · refine ⟨hmem, ?_⟩
        simpa [Option.getD, and_assoc] using hpred
/-- Witness for **C4 (amended)**: a soft-deleted record of the user from
another device, newer than `since`, is returned. -/
theorem pullChanges_mem_witness :
    (⟨"a", "u", "d1", 5, 0, true, "p"⟩ : SyncRecord) ∈
      pullChanges "u" "d2" (some 3) [⟨"a", "u", "d1", 5, 0, true, "p"⟩] :=
  (pullChanges_mem "u" "d2" (some 3) [⟨"a", "u", "d1", 5, 0, true, "p"⟩]
    ⟨"a", "u", "d1", 5, 0, true, "p"⟩).1.mpr (by simp)

/-- Counterexample to **C4** as stated: with `since` absent, a record
stamped exactly at the epoch is not returned, although its `userId`
matches and its `deviceId` differs — "absent `since`" is the epoch, not
the beginning of time, and the comparison is strict. -/
theorem pullChanges_epoch_record_excluded :
    pullChanges "u" "d2" none [⟨"a", "u", "d1", 0, 0, false, "p"⟩] = [] ∧
    (⟨"a", "u", "d1", 0, 0, false, "p"⟩ : SyncRecord).userId = "u" ∧
    (⟨"a", "u", "d1", 0, 0, false, "p"⟩ : SyncRecord).deviceId ≠ "d2" := by
  refine ⟨rfl, rfl, ?_⟩
  decide

/-! ## Restore: sweep phase -/

/-- Counterexample to **C5** as stated: the sweep issues no `updateMany`
for UserPreferences, so a live preferences record of the user survives a
restore (here with an empty backup payload) with `deleted` still
`false`. -/
theorem restore_sweep_skips_preferences :
    ((restoreBackup "u" "d" 100 noFail noFail ⟨[], [], [], none⟩
        ⟨[], [], [], [⟨"pref_u", "u", "d0", 5, 0, false, "pp"⟩]⟩).2).preferences =
      [⟨"pref_u", "u", "d0", 5, 0, false, "pp"⟩] ∧
    (⟨"pref_u", "u", "d0", 5, 0, false, "pp"⟩ : SyncRecord).deleted = false := ⟨rfl, rfl⟩

/-- **C5 (amended).** The restore sweep phase, for every currently
stored record of the user in the Space, Category and Item entity types
(live ones included), sets `deleted := true`, `updatedAt := now` and
`deviceId` to the caller-supplied device id, without consulting the
conflict resolver; no sweep is applied to the UserPreferences store. -/
theorem restore_sweep_soft_deletes (userId deviceId : String) (now : Int)
    (stores : Stores) :
    (restoreSweep userId deviceId now stores).preferences = stores.preferences ∧
    (∀ r ∈ stores.spaces, r.userId = userId →
      ({ r with deleted := true, updatedAt := now, deviceId := deviceId }) ∈
        (restoreSweep userId deviceId now stores).spaces) ∧
    (∀ r ∈ stores.categories, r.userId = userId →
      ({ r with deleted := true, updatedAt := now, deviceId := deviceId }) ∈
        (restoreSweep userId deviceId now stores).categories) ∧
    (∀ r ∈ stores.items, r.userId = userId →
      ({ r with deleted := true, updatedAt := now, deviceId := deviceId }) ∈
        (restoreSweep userId deviceId now stores).items) := by
  have key : ∀ (st : Store), ∀ r ∈ st, r.userId = userId →
      ({ r with deleted := true, updatedAt := now, deviceId := deviceId }) ∈
        sweepUser userId deviceId now st := by
    intro st r hr ho
    have : ({ r with deleted := true, updatedAt := now, deviceId := deviceId } : SyncRecord) =
        (fun x : SyncRecord =>
          if x.userId == userId then
            { x with deleted := true, updatedAt := now, deviceId := deviceId }
          else x) r := by
      simp [ho]
    rw [this, sweepUser]
    exact List.mem_map_of_mem _ hr
  exact ⟨rfl, key stores.spaces, key stores.categories, key stores.items⟩

/-- Witness for **C5 (amended)**: a concrete live Item of the user is
soft-deleted and re-stamped by the sweep. -/
theorem restore_sweep_soft_deletes_witness :
    (⟨"i1", "u", "dR", 99, 0, true, "it"⟩ : SyncRecord) ∈
      (restoreSweep "u" "dR" 99 ⟨[], [], [⟨"i1", "u", "d0", 5, 0, false, "it"⟩], []⟩).items :=
  (restore_sweep_soft_deletes "u" "dR" 99
      ⟨[], [], [⟨"i1", "u", "d0", 5, 0, false, "it"⟩], []⟩).2.2.2
    ⟨"i1", "u", "d0", 5, 0, false, "it"⟩ (List.mem_singleton_self _) rfl

/-! ## Preferences keying -/

/-- When no stored record matches the key, the upsert inserts the
document, leaving every stored record in place. -/
theorem upsertRecord_of_not_found (i u : String) (doc : SyncRecord) (st : Store)
    (hmiss : findRecord i u st = none) :
    upsertRecord i u doc st = st ++ [doc] := by
  induction st with
  | nil => rfl
  | cons r rs ih =>
      rw [findRecord, List.find?_cons] at hmiss
      rcases hk : keyMatch i u r with _ | _
      · rw [hk] at hmiss
        simp only [upsertRecord, hk, Bool.false_eq_true, if_false, List.cons_append]
        rw [ih hmiss]
      · rw [hk] at hmiss
        exact absurd hmiss (by simp)

theorem processPreferencesChanges_nil (userId deviceId : String)
    (failL failW : SyncRecord → Bool) (st : Store) :
    processPreferencesChanges userId deviceId failL failW [] st = (⟨0, 0, []⟩, st) := rfl

theorem processPreferencesChanges_cons (userId deviceId : String)
    (failL failW : SyncRecord → Bool) (record : SyncRecord) (rest : List SyncRecord)
    (st : Store) :
    processPreferencesChanges userId deviceId failL failW (record :: rest) st =
      (⟨(processOnePreferences userId deviceId failL failW st record).1.accepted +
          (processPreferencesChanges userId deviceId failL failW rest
            (processOnePreferences userId deviceId failL failW st record).2).1.accepted,
        (processOnePreferences userId deviceId failL failW st record).1.rejected +
          (processPreferencesChanges userId deviceId failL failW rest
            (processOnePreferences userId deviceId failL failW st record).2).1.rejected,
        (processOnePreferences userId deviceId failL failW st record).1.conflicts ++
          (processPreferencesChanges userId deviceId failL failW rest
            (processOnePreferences userId deviceId failL failW st record).2).1.conflicts⟩,
       (processPreferencesChanges userId deviceId failL failW rest
         (processOnePreferences userId deviceId failL failW st record).2).2) := rfl

/-- Counterexample to **C8** as stated: the user's stored preferences
row has id `pref_u`; the pushed preferences payload carries id `other`
and a *strictly newer* timestamp.  Were the lookup and upsert keyed by
`userId` alone, the resolver would accept the newer payload and update
the stored row; instead the `(id, userId)` lookup misses, the attempted
insert violates the unique `userId` index (E11000), and the push is
silently rejected — outcome `⟨0, 1, []⟩`, store unchanged, the stored
row never consulted or updated. -/
theorem preferences_cross_id_push_rejected :
    processPreferencesChanges "u" "d1" noFail noFail
        [⟨"other", "u", "dC", 99, 0, false, "new"⟩]
        [⟨"pref_u", "u", "d0", 10, 0, false, "old"⟩] =
      (⟨0, 1, []⟩, [⟨"pref_u", "u", "d0", 10, 0, false, "old"⟩]) ∧
    (99 : Int) > (10 : Int) := by
  refine ⟨rfl, ?_⟩
  decide

/-- **C8 (amended).** A UserPreferences record submitted through push is
carried as a single object (wrapped into a one-element array) but is
processed by the same `(id, userId)`-keyed lookup and upsert as every
other entity type, with the schema's unique `id`/`userId` indexes
guarding the insert arm: when the payload's id matches no stored row
but the user already has a preferences row under a different id, the
insert throws E11000 and is caught as a silent rejection, leaving the
store unchanged; the push resolves against and updates the user's
singleton only when the payload's id equals the stored row's id; and a
fresh insert under the client-chosen id succeeds only when neither
index is violated. -/
theorem preferences_push_unique_index (userId deviceId : String) (p : SyncRecord)
    (st : Store) (ho : p.userId = userId) :
    (findRecord p.id userId st = none → (∃ q ∈ st, q.userId = userId) →
      processPreferencesChanges userId deviceId noFail noFail [p] st = (⟨0, 1, []⟩, st)) ∧
    (∀ e, findRecord p.id userId st = some e → p.updatedAt > e.updatedAt →
      processPreferencesChanges userId deviceId noFail noFail [p] st =
        (⟨1, 0, []⟩, upsertRecord p.id userId (recordToSave p userId deviceId) st)) ∧
    (findRecord p.id userId st = none → (∀ q ∈ st, q.id ≠ p.id ∧ q.userId ≠ userId) →
      processPreferencesChanges userId deviceId noFail noFail [p] st =
        (⟨1, 0, []⟩, st ++ [recordToSave p userId deviceId])) := by
  refine ⟨?_, ?_, ?_⟩
  · intro hmiss hq
    obtain ⟨q, hqmem, hqu⟩ := hq
    have hthrow : prefsInsertThrows (recordToSave p userId deviceId) st = true := by
      apply List.any_eq_true.mpr
      refine ⟨q, hqmem, ?_⟩
      simp [recordToSave, hqu]
    have hstep : processOnePreferences userId deviceId noFail noFail st p =
        (⟨0, 1, []⟩, st) := by
      unfold processOnePreferences
      simp [ho, hmiss, hthrow, noFail]
    rw [processPreferencesChanges_cons, hstep, processPreferencesChanges_nil]
    simp
  · intro e hfind hgt
    have hacc : shouldAcceptChange p (some e) = true := by
      simp [shouldAcceptChange, hgt]
    have hstep : processOnePreferences userId deviceId noFail noFail st p =
        (⟨1, 0, []⟩, upsertRecord p.id userId (recordToSave p userId deviceId) st) := by
      unfold processOnePreferences
      simp [ho, hfind, hacc, noFail]
    rw [processPreferencesChanges_cons, hstep, processPreferencesChanges_nil]
    simp
  · intro hmiss hq
    have hthrow : prefsInsertThrows (recordToSave p userId deviceId) st = false := by
      rw [prefsInsertThrows]
      rw [List.any_eq_false]
      intro q hqmem
      obtain ⟨h1, h2⟩ := hq q hqmem
      simp [recordToSave, h1, h2]
    have hstep : processOnePreferences userId deviceId noFail noFail st p =
        (⟨1, 0, []⟩, upsertRecord p.id userId (recordToSave p userId deviceId) st) := by
      unfold processOnePreferences
      simp [ho, hmiss, hthrow, noFail]
    rw [processPreferencesChanges_cons, hstep, processPreferencesChanges_nil,
      upsertRecord_of_not_found p.id userId (recordToSave p userId deviceId) st hmiss]
    simp

/-- Witness for **C8 (amended)**: a concrete cross-id preferences push
next to the user's stored row is silently rejected with the store
unchanged. -/
theorem preferences_push_unique_index_witness :
    processPreferencesChanges "u" "d1" noFail noFail
        [⟨"other", "u", "dC", 7, 0, false, "new"⟩]
        [⟨"pref_u", "u", "d0", 10, 0, false, "old"⟩] =
      (⟨0, 1, []⟩, [⟨"pref_u", "u", "d0", 10, 0, false, "old"⟩]) :=
  (preferences_push_unique_index "u" "d1" ⟨"other", "u", "dC", 7, 0, false, "new"⟩
      [⟨"pref_u", "u", "d0", 10, 0, false, "old"⟩] rfl).1 rfl
    ⟨⟨"pref_u", "u", "d0", 10, 0, false, "old"⟩, List.mem_singleton_self _, rfl⟩

/-! ## Restore: replay phase -/

/-- Processing one record either leaves the store unchanged or upserts
under that record's own key. -/
theorem processOneRecord_store_cases (modelName userId deviceId : String)
    (failL failW : SyncRecord → Bool) (st : Store) (record : SyncRecord) :
    (processOneRecord modelName userId deviceId failL failW st record).2 = st ∨
    (processOneRecord modelName userId deviceId failL failW st record).2 =
      upsertRecord record.id userId (recordToSave record userId deviceId) st := by
  unfold processOneRecord
  repeat' split
  all_goals first
    | exact Or.inl rfl
    | exact Or.inr rfl

/-- Processing one record does not change what a lookup under any other
id sees. -/
theorem processOneRecord_find_frame (modelName userId deviceId : String)
    (failL failW : SyncRecord → Bool) (st : Store) (record : SyncRecord)
    (i : String) (hne : record.id ≠ i) :
    findRecord i userId
        (processOneRecord modelName userId deviceId failL failW st record).2 =
      findRecord i userId st := by
  rcases processOneRecord_store_cases modelName userId deviceId failL failW st record with
    h | h
  · rw [h]
  · rw [h]
    exact findRecord_upsert_other record.id i userId
      (recordToSave record userId deviceId) st rfl hne

/-- A batch none of whose records carries id `i` does not change what a
lookup under `i` sees. -/
theorem processSyncChanges_find_frame (modelName userId deviceId : String)
    (failL failW : SyncRecord → Bool) (records : List SyncRecord) (st : Store)
    (i : String) (hni : ∀ r ∈ records, r.id ≠ i) :
    findRecord i userId
        (processSyncChanges modelName userId deviceId failL failW records st).2 =
      findRecord i userId st := by
  induction records generalizing st with
  | nil => rfl
  | cons record rest ih =>
      rw [processSyncChanges_cons]
      have h1 := processOneRecord_find_frame modelName userId deviceId failL failW st record
        i (hni record (List.mem_cons_self record rest))
      have h2 := ih (processOneRecord modelName userId deviceId failL failW st record).2
        (fun r hr => hni r (List.mem_cons_of_mem record hr))
      rw [h2, h1]

/-- LWW outcome of a failure-free replay for one record of the batch,
when the batch's ids are pairwise distinct and the record is owned by
the user: if the store held nothing under the record's id, the record
(with forced `userId`/`deviceId`) becomes the stored version; if the
store held `e`, the record becomes the stored version when its
`updatedAt` strictly exceeds `e.updatedAt`, and otherwise `e` stays. -/
theorem replay_record_outcome (modelName userId deviceId : String)
    (records : List SyncRecord) (st : Store) (r : SyncRecord)
    (hr : r ∈ records) (hnodup : (records.map (fun x => x.id)).Nodup)
    (ho : r.userId = userId) :
    (findRecord r.id userId st = none →
      findRecord r.id userId
          (processSyncChanges modelName userId deviceId noFail noFail records st).2 =
        some (recordToSave r userId deviceId)) ∧
    (∀ e, findRecord r.id userId st = some e →
      (r.updatedAt > e.updatedAt →
        findRecord r.id userId
            (processSyncChanges modelName userId deviceId noFail noFail records st).2 =
          some (recordToSave r userId deviceId)) ∧
      (¬ r.updatedAt > e.updatedAt →
        findRecord r.id userId
            (processSyncChanges modelName userId deviceId noFail noFail records st).2 =
          some e)) := by
  induction records generalizing st with
  | nil => exact absurd hr (List.not_mem_nil r)
  | cons head rest ih =>
      rw [List.map_cons, List.nodup_cons] at hnodup
      rcases List.mem_cons.mp hr with heq | hmem
      · subst heq
        have hrest : ∀ x ∈ rest, x.id ≠ r.id := by
          intro x hx hxid
          exact hnodup.1 (hxid ▸ List.mem_map_of_mem (fun y => y.id) hx)
        have hframe : ∀ st' : Store,
            findRecord r.id userId
                (processSyncChanges modelName userId deviceId noFail noFail rest st').2 =
              findRecord r.id userId st' :=
          fun st' => processSyncChanges_find_frame modelName userId deviceId noFail noFail
            rest st' r.id hrest
        constructor
        · intro hmiss
          have hacc : shouldAcceptChange r (findRecord r.id userId st) = true := by
            rw [hmiss]
            rfl
          have hstep := processOneRecord_accept modelName userId deviceId noFail noFail
            st r ho rfl rfl hacc
          rw [processSyncChanges_cons, hstep, hframe]
          exact findRecord_upsert_self r.id userId (recordToSave r userId deviceId) st rfl rfl
        · intro e hfind
          constructor
          · intro hgt
            have hacc : shouldAcceptChange r (findRecord r.id userId st) = true := by
              rw [hfind]
              simpa [shouldAcceptChange] using hgt
            have hstep := processOneRecord_accept modelName userId deviceId noFail noFail
              st r ho rfl rfl hacc
            rw [processSyncChanges_cons, hstep, hframe]
            exact findRecord_upsert_self r.id userId (recordToSave r userId deviceId) st rfl rfl
          · intro hle
            have hacc : shouldAcceptChange r (some e) = false := by
              simpa [shouldAcceptChange] using hle
            have hstep := processOneRecord_reject modelName userId deviceId noFail noFail
              st r e ho rfl hfind hacc
            rw [processSyncChanges_cons, hstep, hframe]
            exact hfind
      · have hne : head.id ≠ r.id := by
          intro hid
          exact hnodup.1 (hid ▸ List.mem_map_of_mem (fun y => y.id) hmem)
        have hstepframe := processOneRecord_find_frame modelName userId deviceId noFail noFail
          st head r.id hne
        have ihh := ih (processOneRecord modelName userId deviceId noFail noFail st head).2
          hmem hnodup.2
        constructor
        · intro hmiss
          rw [processSyncChanges_cons]
          exact ihh.1 (hstepframe.trans hmiss)
        · intro e hfind
          rw [processSyncChanges_cons]
          exact ihh.2 e (hstepframe.trans hfind)

/-- **C6.** The restore replay phase is exactly the push processor run
against the post-sweep stores, and therefore, for a failure-free replay
of a backup with pairwise-distinct ids, each backup record owned by the
user either becomes the stored version under its id — when the
post-sweep store held nothing there, or held something with a strictly
smaller `updatedAt` — or the record the sweep left there stays stored. -/
theorem restore_replay_refines_push (userId deviceId : String) (now : Int)
    (backup : SyncBatch) (stores : Stores)
    (modelName : String) (records : List SyncRecord) (st : Store) (r : SyncRecord)
    (hr : r ∈ records) (hnodup : (records.map (fun x => x.id)).Nodup)
    (ho : r.userId = userId) :
    ((restoreBackup userId deviceId now noFail noFail backup stores).2.spaces =
      (processSyncChanges "Space" userId deviceId noFail noFail backup.spaces
        (sweepUser userId deviceId now stores.spaces)).2) ∧
    ((restoreBackup userId deviceId now noFail noFail backup stores).2.categories =
      (processSyncChanges "Category" userId deviceId noFail noFail backup.categories
        (sweepUser userId deviceId now stores.categories)).2) ∧
    ((restoreBackup userId deviceId now noFail noFail backup stores).2.items =
      (processSyncChanges "Item" userId deviceId noFail noFail backup.items
        (sweepUser userId deviceId now stores.items)).2) ∧
    (findRecord r.id userId (sweepUser userId deviceId now st) = none →
      findRecord r.id userId
          (processSyncChanges modelName userId deviceId noFail noFail records
            (sweepUser userId deviceId now st)).2 =
        some (recordToSave r userId deviceId)) ∧
    (∀ e, findRecord r.id userId (sweepUser userId deviceId now st) = some e →
      (r.updatedAt > e.updatedAt →
        findRecord r.id userId
            (processSyncChanges modelName userId deviceId noFail noFail records
              (sweepUser userId deviceId now st)).2 =
          some (recordToSave r userId deviceId)) ∧
      (¬ r.updatedAt > e.updatedAt →
        findRecord r.id userId
            (processSyncChanges modelName userId deviceId noFail noFail records
              (sweepUser userId deviceId now st)).2 =
          some e)) := by
  obtain ⟨h1, h2⟩ := replay_record_outcome modelName userId deviceId records
    (sweepUser userId deviceId now st) r hr hnodup ho
  exact ⟨rfl, rfl, rfl, h1, h2⟩

/-- Witness for **C6**: a backup Space record stamped after the sweep
instant beats the swept version and becomes the stored version with the
restore's forced `userId`/`deviceId`. -/
theorem restore_replay_refines_push_witness :
    findRecord "a" "u"
        (processSyncChanges "Space" "u" "dR" noFail noFail
          [⟨"a", "u", "dB", 20, 0, false, "bak"⟩]
          (sweepUser "u" "dR" 10 [⟨"a", "u", "dOld", 5, 0, false, "live"⟩])).2 =
      some (recordToSave ⟨"a", "u", "dB", 20, 0, false, "bak"⟩ "u" "dR") :=
  ((restore_replay_refines_push "u" "dR" 10
      ⟨[⟨"a", "u", "dB", 20, 0, false, "bak"⟩], [], [], none⟩
      ⟨[⟨"a", "u", "dOld", 5, 0, false, "live"⟩], [], [], []⟩
      "Space" [⟨"a", "u", "dB", 20, 0, false, "bak"⟩]
      [⟨"a", "u", "dOld", 5, 0, false, "live"⟩]
      ⟨"a", "u", "dB", 20, 0, false, "bak"⟩
      (List.mem_singleton_self _) (by simp) rfl).2.2.2.2
    ⟨"a", "u", "dR", 10, 0, true, "live"⟩ rfl).1 (by decide)
